import Mathlib

/-!
Verification of the model-formulation and solution-decoding engine of the
supply-chain optimizer (`src/supply-chain/src/optimizer.py`).

Shallow embedding conventions:
* identifiers (facility/customer/product ids) are `List Char`, so that the
  decoder's character-level parsing can be modelled exactly;
* Python dicts become association lists with last-binding-wins lookup
  (`dictGet`), mirroring the overwrite semantics of dict construction;
* Python floats become `ℚ` (all arithmetic the claims mention is exact);
* code that raises an exception is modelled with `Option` (`none` = raise).
-/

namespace SupplyChain

/-- Single-quote character (ASCII 39), used by Python `str` of a tuple. -/
def squote : Char := Char.ofNat 39

/-- Double-quote character (ASCII 34), part of the decoder's strip set. -/
def dquote : Char := Char.ofNat 34

/-- An entity identifier, as the character list of the Python string. -/
abbrev Ident := List Char

/-- A (facility, customer, product) key, the composite key of the route table
and of the decision variables. -/
abbrev Triple := Ident × Ident × Ident

/-- Row of `facilities.csv` kept in `self.facility_details`. -/
structure FacilityInfo where
  location : String
  ftype : String
  operational_cost : ℚ
deriving DecidableEq

/-- Row of `customers.csv` kept in `self.customer_details`. -/
structure CustomerInfo where
  region : String
  priority_demand_category : String
  service_level_agreement : String
deriving DecidableEq

/-- Row of `products.csv` kept in `self.product_details`. -/
structure ProductInfo where
  category : String
  weight : ℚ
  is_perishable : Bool
  value : ℚ
deriving DecidableEq

/-- Value of `self.cost_matrix[(f, c, p)]`. -/
structure RouteInfo where
  cost_per_unit : ℚ
  transit_time_days : ℚ
deriving DecidableEq

/-- Value of `self.demand_data[(c, p)]`. -/
structure DemandInfo where
  demand : ℚ
  demand_volatility : ℚ
deriving DecidableEq

/-- Value of `self.capacity_data[(f, p)]`. -/
structure CapacityInfo where
  capacity : ℚ
  current_utilization : ℚ
deriving DecidableEq

/-- Lookup in an association list with Python-dict semantics: the *last*
binding of a key wins, since later assignments overwrite earlier ones. -/
def dictGet {κ ν : Type} [DecidableEq κ] (k : κ) (d : List (κ × ν)) : Option ν :=
  ((d.filter (fun kv => kv.1 = k)).getLast?).map Prod.snd

/-- Key set of a Python dict built from the bindings `d` (each key once). -/
def dictKeys {κ ν : Type} [DecidableEq κ] (d : List (κ × ν)) : List κ :=
  (d.map Prod.fst).dedup

/-- Items of a Python dict built from the bindings `d`: each key exactly once,
paired with its last-bound value. -/
def dictItems {κ ν : Type} [DecidableEq κ] (d : List (κ × ν)) : List (κ × ν) :=
  (dictKeys d).filterMap (fun k => (dictGet k d).map (fun v => (k, v)))

/-- The mutable table state of `SupplyChainOptimizer` after `load_data_from_csv`
has filled the six tables (the CSV parsing itself is external to the core). -/
structure OptState where
  facilities : List Ident
  customers : List Ident
  products : List Ident
  facility_details : List (Ident × FacilityInfo)
  customer_details : List (Ident × CustomerInfo)
  product_details : List (Ident × ProductInfo)
  cost_matrix : List (Triple × RouteInfo)
  demand_data : List ((Ident × Ident) × DemandInfo)
  capacity_data : List ((Ident × Ident) × CapacityInfo)
deriving DecidableEq

/-- The full cross product of loaded facilities × customers × products, in the
nesting order of the Python loops. -/
def crossTriples (s : OptState) : List Triple :=
  s.facilities.flatMap fun f =>
    s.customers.flatMap fun c =>
      s.products.map fun p => (f, c, p)

/-- The triples the load-time verification pass finds absent from the authored
route table (`optimizer.py` lines 94-99). -/
def missingRoutes (s : OptState) : List Triple :=
  (crossTriples s).filter (fun t => (dictGet t s.cost_matrix).isNone)

/-- Load-time penalty substitution (`optimizer.py` lines 101-109): every
missing route receives `{cost_per_unit = 1000, transit_time_days = 7}`. -/
def fill_missing_routes (s : OptState) : OptState :=
  { s with cost_matrix :=
      s.cost_matrix ++ (missingRoutes s).map (fun t => (t, ⟨1000, 7⟩)) }

/-- The method `get_transport_cost` (`optimizer.py` lines 191-197): dictionary
access with a `KeyError` fallback of 1000. -/
def get_transport_cost (s : OptState) (f c p : Ident) : ℚ :=
  match dictGet (f, c, p) s.cost_matrix with
  | some r => r.cost_per_unit
  | none => 1000

theorem dictGet_append {κ ν : Type} [DecidableEq κ] (k : κ) (d₁ d₂ : List (κ × ν)) :
    dictGet k (d₁ ++ d₂) = (dictGet k d₂).or (dictGet k d₁) := by
  unfold dictGet
  rw [List.filter_append, List.getLast?_append]
  cases h : (d₂.filter (fun kv => kv.1 = k)).getLast? <;> simp [Option.or, h]

theorem getLast?_of_all_eq {α : Type} (a : α) :
    ∀ (l : List α), l ≠ [] → (∀ x ∈ l, x = a) → l.getLast? = some a := by
  intro l
  induction l with
  | nil => intro h; exact absurd rfl h
  | cons x xs ih =>
    intro _ hall
    cases xs with
    | nil => simpa using hall x (by simp)
    | cons y ys =>
      rw [List.getLast?_cons_cons]
      exact ih (by simp) (fun z hz => hall z (by simp [hz]))

/-- Lookup in the penalty block: a triple that is missing finds the penalty
entry, a triple that is not missing finds nothing. -/
theorem dictGet_penalty_block (s : OptState) (t : Triple) :
    dictGet t ((missingRoutes s).map (fun u => (u, (⟨1000, 7⟩ : RouteInfo)))) =
      if t ∈ missingRoutes s then some ⟨1000, 7⟩ else none := by
  unfold dictGet
  rw [List.filter_map]
  by_cases hmem : t ∈ missingRoutes s
  · rw [if_pos hmem]
    have hne : (missingRoutes s).filter (fun u => decide (u = t)) ≠ [] := by
      intro hnil
      have : t ∈ (missingRoutes s).filter (fun u => decide (u = t)) := by
        simp [List.mem_filter, hmem]
      rw [hnil] at this
      exact absurd this (by simp)
    have hall : ∀ x ∈ (missingRoutes s).filter (fun u => decide (u = t)), x = t := by
      intro x hx
      have := (List.mem_filter.mp hx).2
      simpa using this
    have h2 : ((missingRoutes s).filter (fun u => decide (u = t))).map
        (fun u => (u, (⟨1000, 7⟩ : RouteInfo))) ≠ [] := by
      simpa using hne
    have h3 : ∀ y ∈ ((missingRoutes s).filter (fun u => decide (u = t))).map
        (fun u => (u, (⟨1000, 7⟩ : RouteInfo))), y = (t, (⟨1000, 7⟩ : RouteInfo)) := by
      intro y hy
      rcases List.mem_map.mp hy with ⟨u, hu, rfl⟩
      simp [hall u hu]
    rw [show ((fun kv => decide (kv.1 = t)) ∘ fun u => (u, (⟨1000, 7⟩ : RouteInfo))) =
        (fun u => decide (u = t)) from rfl]
    rw [getLast?_of_all_eq _ _ h2 h3]
    rfl
  · rw [if_neg hmem]
    have : (missingRoutes s).filter (fun u => decide (u = t)) = [] := by
      rw [List.filter_eq_nil_iff]
      intro u hu
      simp only [decide_eq_true_eq]
      intro h
      exact hmem (h ▸ hu)
    rw [show ((fun kv => decide (kv.1 = t)) ∘ fun u => (u, (⟨1000, 7⟩ : RouteInfo))) =
        (fun u => decide (u = t)) from rfl]
    rw [this]
    rfl

/-- Claim C3. After table construction, every (facility, customer, product)
triple of the full cross product that is absent from the authored route table
looks up the penalty entry {cost_per_unit = 1000, transit_time_days = 7},
while every authored route keeps its authored cost and transit time. -/
theorem routes_penalty_fallback (s : OptState) (t : Triple) (ht : t ∈ crossTriples s) :
    (dictGet t s.cost_matrix = none →
      dictGet t (fill_missing_routes s).cost_matrix = some ⟨1000, 7⟩ ∧
      get_transport_cost (fill_missing_routes s) t.1 t.2.1 t.2.2 = 1000) ∧
    (∀ r : RouteInfo, dictGet t s.cost_matrix = some r →
      dictGet t (fill_missing_routes s).cost_matrix = some r) := by
  constructor
  · intro hnone
    have hmem : t ∈ missingRoutes s := by
      simp [missingRoutes, List.mem_filter, ht, hnone]
    have : dictGet t (fill_missing_routes s).cost_matrix = some ⟨1000, 7⟩ := by
      unfold fill_missing_routes
      rw [dictGet_append, dictGet_penalty_block, if_pos hmem]
      rfl
    refine ⟨this, ?_⟩
    unfold get_transport_cost
    rw [show ((t.1, t.2.1, t.2.2) : Triple) = t from rfl, this]
  · intro r hr
    have hmem : t ∉ missingRoutes s := by
      simp [missingRoutes, List.mem_filter, hr]
    unfold fill_missing_routes
    rw [dictGet_append, dictGet_penalty_block, if_neg hmem]
    simp [hr, Option.or]

/-- Witness for claim C3 at a concrete state: one facility, one customer, two
products, one authored route; the other route is penalized, the authored route
keeps cost 10 and transit 2. -/
theorem routes_penalty_fallback_witness :
    (("F1".toList, "C1".toList, "P2".toList) ∈ crossTriples
      { facilities := ["F1".toList], customers := ["C1".toList],
        products := ["P1".toList, "P2".toList],
        facility_details := [], customer_details := [], product_details := [],
        cost_matrix := [(("F1".toList, "C1".toList, "P1".toList), ⟨10, 2⟩)],
        demand_data := [], capacity_data := [] }) ∧
    (dictGet ("F1".toList, "C1".toList, "P2".toList) (fill_missing_routes
      { facilities := ["F1".toList], customers := ["C1".toList],
        products := ["P1".toList, "P2".toList],
        facility_details := [], customer_details := [], product_details := [],
        cost_matrix := [(("F1".toList, "C1".toList, "P1".toList), ⟨10, 2⟩)],
        demand_data := [], capacity_data := [] }).cost_matrix = some ⟨1000, 7⟩) ∧
    (dictGet ("F1".toList, "C1".toList, "P1".toList) (fill_missing_routes
      { facilities := ["F1".toList], customers := ["C1".toList],
        products := ["P1".toList, "P2".toList],
        facility_details := [], customer_details := [], product_details := [],
        cost_matrix := [(("F1".toList, "C1".toList, "P1".toList), ⟨10, 2⟩)],
        demand_data := [], capacity_data := [] }).cost_matrix = some ⟨10, 2⟩) := by
  refine ⟨by decide, ?_, ?_⟩
  · exact ((routes_penalty_fallback _ _ (by decide)).1 (by decide)).1
  · exact (routes_penalty_fallback _ _ (by decide)).2 ⟨10, 2⟩ (by decide)

/-- Tag identifying a constraint by the name the builder gives it
(`Demand_{c}_{p}` or `Capacity_{f}_{p}`). -/
inductive ConKind
| demand (c p : Ident)
| capacity (f p : Ident)
deriving DecidableEq

/-- A linear constraint of the built problem: the sum of the listed decision
variables compared (`≥` when `isGe`, else `≤`) with a right-hand side. -/
structure Constr where
  kind : ConKind
  vars : List Triple
  isGe : Bool
  rhs : ℚ
deriving DecidableEq

/-- The built LP problem: decision variables, objective terms, constraints. -/
structure Model where
  varIndex : List Triple
  objTerms : List (Triple × ℚ)
  constrs : List Constr
deriving DecidableEq

/-- Evaluate `f` on every element, failing (like an uncaught exception inside
the loop) as soon as one evaluation fails. -/
def optionMapAll {α β : Type} (f : α → Option β) : List α → Option (List β)
  | [] => some []
  | a :: l =>
    match f a, optionMapAll f l with
    | some b, some bs => some (b :: bs)
    | _, _ => none

/-- Objective coefficient of variable (f, c, p) (`optimizer.py` lines 162-169):
`cost_matrix[(f,c,p)].cost_per_unit` times 1.2 when
`product_details[p].is_perishable` else 1.0; `none` models the `KeyError`
raised when either table lacks the key. -/
def objCoeff (s : OptState) (t : Triple) : Option ℚ :=
  match dictGet t s.cost_matrix, dictGet t.2.2 s.product_details with
  | some r, some prodInfo =>
      some (r.cost_per_unit * (if prodInfo.is_perishable then (1.2 : ℚ) else 1.0))
  | _, _ => none

/-- Demand constraint for one item of `demand_data` (`optimizer.py` lines
172-176): sum over all facilities of quantity(f,c,p) at least the demand.
The guard models the `KeyError` raised when `shipment_vars` lacks a key the
loop references (a dangling customer or product id). -/
def mkDemandCon (s : OptState) : ((Ident × Ident) × DemandInfo) → Option Constr
  | ((c, p), di) =>
    if ∀ f ∈ s.facilities, (f, c, p) ∈ crossTriples s then
      some { kind := ConKind.demand c p,
             vars := s.facilities.map (fun f => (f, c, p)),
             isGe := true, rhs := di.demand }
    else none

/-- Capacity constraint for one item of `capacity_data` (`optimizer.py` lines
177-182): sum over all customers of quantity(f,c,p) at most
`capacity × (1 − current_utilization)`. -/
def mkCapacityCon (s : OptState) : ((Ident × Ident) × CapacityInfo) → Option Constr
  | ((f, p), ci) =>
    if ∀ c ∈ s.customers, (f, c, p) ∈ crossTriples s then
      some { kind := ConKind.capacity f p,
             vars := s.customers.map (fun c => (f, c, p)),
             isGe := false, rhs := ci.capacity * (1 - ci.current_utilization) }
    else none

/-- The method `create_optimization_model` (`optimizer.py` lines 147-190):
one decision variable per cross-product triple, the perishability-adjusted
objective, one demand constraint per `demand_data` item and one capacity
constraint per `capacity_data` item. -/
def create_optimization_model (s : OptState) : Option Model :=
  match optionMapAll (fun t => (objCoeff s t).map (fun k => (t, k))) (crossTriples s),
        optionMapAll (mkDemandCon s) (dictItems s.demand_data),
        optionMapAll (mkCapacityCon s) (dictItems s.capacity_data) with
  | some objTerms, some dcs, some ccs =>
      some { varIndex := crossTriples s, objTerms := objTerms, constrs := dcs ++ ccs }
  | _, _, _ => none

/-- Value of the objective at an assignment of quantities to variables. -/
def evalObj (m : Model) (q : Triple → ℚ) : ℚ :=
  (m.objTerms.map (fun tk => q tk.1 * tk.2)).sum

/-- An assignment satisfies one constraint. -/
def conSatisfied (q : Triple → ℚ) (con : Constr) : Prop :=
  if con.isGe then con.rhs ≤ (con.vars.map q).sum
  else (con.vars.map q).sum ≤ con.rhs

/-- An assignment lies in the feasible region of the built problem: all
constraints hold and every decision variable respects its lower bound 0. -/
def feasibleModel (m : Model) (q : Triple → ℚ) : Prop :=
  (∀ con ∈ m.constrs, conSatisfied q con) ∧ ∀ t ∈ m.varIndex, 0 ≤ q t

/-- Unit cost of a triple read back from the route table (0 when absent, which
cannot happen for a triple of a successfully built model). -/
def unitCostD (s : OptState) (t : Triple) : ℚ :=
  match dictGet t s.cost_matrix with
  | some r => r.cost_per_unit
  | none => 0

/-- Perishability multiplier of the product of a triple, as the spec states
it: 1.2 when perishable, else 1.0. -/
def perishMultD (s : OptState) (t : Triple) : ℚ :=
  match dictGet t.2.2 s.product_details with
  | some prodInfo => if prodInfo.is_perishable then (1.2 : ℚ) else 1.0
  | none => 1

def sF1 : Ident := "F1".toList

def sC1 : Ident := "C1".toList

def sP1 : Ident := "P1".toList

def t111 : Triple := (sF1, sC1, sP1)

/-- The single-route scenario of spec §8 with P1 perishable: cost_per_unit 10,
demand 100, capacity 150, utilization 0. -/
def scenario1 : OptState :=
  { facilities := [sF1], customers := [sC1], products := [sP1],
    facility_details := [(sF1, ⟨"LocA", "warehouse", 500⟩)],
    customer_details := [(sC1, ⟨"North", "high", "silver"⟩)],
    product_details := [(sP1, ⟨"Food", 2, true, 50⟩)],
    cost_matrix := [(t111, ⟨10, 2⟩)],
    demand_data := [((sC1, sP1), ⟨100, 3⟩)],
    capacity_data := [((sF1, sP1), ⟨150, 0⟩)] }

/-- The model the builder produces from `scenario1`. -/
def mS1 : Model :=
  { varIndex := [t111],
    objTerms := [(t111, 12)],
    constrs := [⟨ConKind.demand sC1 sP1, [t111], true, 100⟩,
                ⟨ConKind.capacity sF1 sP1, [t111], false, 150⟩] }

theorem create_model_scenario1 : create_optimization_model scenario1 = some mS1 := by
  norm_num [create_optimization_model, crossTriples, scenario1, optionMapAll, objCoeff,
    dictGet, dictItems, dictKeys, mkDemandCon, mkCapacityCon, mS1, t111, sF1, sC1, sP1]

theorem optionMapAll_forall2 {α β : Type} (f : α → Option β) :
    ∀ {l : List α} {l2 : List β}, optionMapAll f l = some l2 →
      List.Forall₂ (fun a b => f a = some b) l l2 := by
  intro l
  induction l with
  | nil =>
    intro l2 h
    simp only [optionMapAll, Option.some.injEq] at h
    subst h
    exact List.Forall₂.nil
  | cons a l ih =>
    intro l2 h
    simp only [optionMapAll] at h
    cases hfa : f a with
    | none => rw [hfa] at h; exact absurd h (by simp)
    | some b =>
      rw [hfa] at h
      cases hrec : optionMapAll f l with
      | none => rw [hrec] at h; exact absurd h (by simp)
      | some bs =>
        rw [hrec] at h
        simp only [Option.some.injEq] at h
        subst h
        exact List.Forall₂.cons hfa (ih hrec)

theorem sum_objTerms (s : OptState) (q : Triple → ℚ) :
    ∀ {l : List Triple} {terms : List (Triple × ℚ)},
      List.Forall₂ (fun t b => (objCoeff s t).map (fun k => (t, k)) = some b) l terms →
      (terms.map (fun tk => q tk.1 * tk.2)).sum =
        (l.map (fun t => q t * unitCostD s t * perishMultD s t)).sum := by
  intro l terms h
  induction h with
  | nil => rfl
  | @cons a b l2 terms2 hab htail ih =>
    simp only [List.map_cons, List.sum_cons, ih]
    congr 1
    cases hoc : objCoeff s a with
    | none => rw [hoc] at hab; exact absurd hab (by simp)
    | some k =>
      rw [hoc] at hab
      simp only [Option.map_some', Option.some.injEq] at hab
      subst hab
      unfold objCoeff at hoc
      unfold unitCostD perishMultD
      cases hg1 : dictGet a s.cost_matrix with
      | none => rw [hg1] at hoc; exact absurd hoc (by simp)
      | some r =>
        cases hg2 : dictGet a.2.2 s.product_details with
        | none => rw [hg1, hg2] at hoc; exact absurd hoc (by simp)
        | some prodInfo =>
          rw [hg1, hg2] at hoc
          simp only [Option.some.injEq] at hoc
          subst hoc
          ring

/-- Claim C1. The objective of the built model is the sum over the full cross
product of quantity × unit cost × (1.2 when the product is perishable else
1.0); and for the single-route scenario with cost 10, demand 100, capacity
150, utilization 0 and P1 perishable, the optimal total cost is 1200. -/
theorem objective_perishable_premium :
    (∀ (s : OptState) (m : Model) (q : Triple → ℚ),
        create_optimization_model s = some m →
        evalObj m q =
          ((crossTriples s).map (fun t => q t * unitCostD s t * perishMultD s t)).sum) ∧
    IsLeast {v : ℚ | ∃ m q, create_optimization_model scenario1 = some m ∧
        feasibleModel m q ∧ evalObj m q = v} 1200 := by
  constructor
  · intro s m q hm
    unfold create_optimization_model at hm
    cases h1 : optionMapAll (fun t => (objCoeff s t).map (fun k => (t, k))) (crossTriples s) with
    | none => rw [h1] at hm; exact absurd hm (by simp)
    | some objTerms =>
      cases h2 : optionMapAll (mkDemandCon s) (dictItems s.demand_data) with
      | none => rw [h1, h2] at hm; exact absurd hm (by simp)
      | some dcs =>
        cases h3 : optionMapAll (mkCapacityCon s) (dictItems s.capacity_data) with
        | none => rw [h1, h2, h3] at hm; exact absurd hm (by simp)
        | some ccs =>
          rw [h1, h2, h3] at hm
          simp only [Option.some.injEq] at hm
          subst hm
          exact sum_objTerms s q (optionMapAll_forall2 _ h1)
  · constructor
    · refine ⟨mS1, fun _ => 100, create_model_scenario1, ⟨?_, ?_⟩, ?_⟩
      · intro con hcon
        simp only [mS1, List.mem_cons, List.not_mem_nil, or_false] at hcon
        rcases hcon with rfl | rfl
        · norm_num [conSatisfied]
        · norm_num [conSatisfied]
      · intro t _
        norm_num
      · norm_num [evalObj, mS1]
    · rintro v ⟨m, q, hm, hfeas, hv⟩
      rw [create_model_scenario1] at hm
      injection hm with hm
      subst hm
      have hd : conSatisfied q ⟨ConKind.demand sC1 sP1, [t111], true, 100⟩ :=
        hfeas.1 _ (by simp [mS1])
      simp only [conSatisfied, List.map_cons, List.map_nil,
        List.sum_cons, List.sum_nil, add_zero] at hd
      norm_num at hd
      subst hv
      simp only [evalObj, mS1, List.map_cons, List.map_nil, List.sum_cons,
        List.sum_nil, add_zero]
      linarith


theorem forall2_mem_right {α β : Type} {R : α → β → Prop} :
    ∀ {l1 : List α} {l2 : List β}, List.Forall₂ R l1 l2 → ∀ b ∈ l2, ∃ a ∈ l1, R a b := by
  intro l1 l2 h
  induction h with
  | nil => simp
  | cons hab htail ih =>
    intro b hb
    rcases List.mem_cons.mp hb with rfl | hb
    · exact ⟨_, by simp, hab⟩
    · rcases ih b hb with ⟨a, ha, hr⟩
      exact ⟨a, by simp [ha], hr⟩

theorem mem_dictItems {κ ν : Type} [DecidableEq κ] (d : List (κ × ν)) (k : κ) (v : ν) :
    (k, v) ∈ dictItems d ↔ dictGet k d = some v := by
  unfold dictItems
  rw [List.mem_filterMap]
  constructor
  · rintro ⟨k2, _, hmap⟩
    cases hg : dictGet k2 d with
    | none => rw [hg] at hmap; exact absurd hmap (by simp)
    | some v2 =>
      rw [hg] at hmap
      simp only [Option.map_some', Option.some.injEq, Prod.mk.injEq] at hmap
      obtain ⟨rfl, rfl⟩ := hmap
      exact hg
  · intro hg
    refine ⟨k, ?_, by rw [hg]; rfl⟩
    unfold dictKeys
    rw [List.mem_dedup, List.mem_map]
    unfold dictGet at hg
    cases hlast : (d.filter (fun kv => kv.1 = k)).getLast? with
    | none => rw [hlast] at hg; exact absurd hg (by simp)
    | some kv =>
      have hmem : kv ∈ d.filter (fun kv => kv.1 = k) := List.mem_of_getLast?_eq_some hlast
      have := List.mem_filter.mp hmem
      exact ⟨kv, this.1, by simpa using this.2⟩

theorem dictItems_key_not_mem {κ ν : Type} [DecidableEq κ] (d : List (κ × ν)) (k : κ)
    (h : dictGet k d = none) : k ∉ (dictItems d).map Prod.fst := by
  intro hmem
  rcases List.mem_map.mp hmem with ⟨kv, hkv, rfl⟩
  have : dictGet kv.1 d = some kv.2 := (mem_dictItems d kv.1 kv.2).mp (by simpa using hkv)
  rw [h] at this
  exact absurd this (by simp)

theorem filterMap_keys_aux {κ ν : Type} [DecidableEq κ] (g : κ → Option ν) :
    ∀ ks : List κ,
      (∀ x ∈ (ks.filterMap (fun k => (g k).map (fun v => (k, v)))).map Prod.fst, x ∈ ks) ∧
      (ks.Nodup → ((ks.filterMap (fun k => (g k).map (fun v => (k, v)))).map Prod.fst).Nodup) := by
  intro ks
  induction ks with
  | nil => simp
  | cons k ks ih =>
    constructor
    · intro x hx
      rw [List.filterMap_cons] at hx
      cases hg : g k with
      | none =>
        rw [hg] at hx
        exact List.mem_cons_of_mem _ (ih.1 x hx)
      | some v =>
        rw [hg] at hx
        simp only [Option.map_some'] at hx
        rw [List.map_cons] at hx
        rcases List.mem_cons.mp hx with rfl | hx
        · exact List.mem_cons_self _ _
        · exact List.mem_cons_of_mem _ (ih.1 x hx)
    · intro hnd
      rw [List.filterMap_cons]
      have hnd2 := (List.nodup_cons.mp hnd).2
      have hk := (List.nodup_cons.mp hnd).1
      cases hg : g k with
      | none => exact ih.2 hnd2
      | some v =>
        simp only [Option.map_some']
        rw [List.map_cons]
        rw [List.nodup_cons]
        exact ⟨fun hmem => hk (ih.1 k hmem), ih.2 hnd2⟩

theorem dictItems_keys_nodup {κ ν : Type} [DecidableEq κ] (d : List (κ × ν)) :
    ((dictItems d).map Prod.fst).Nodup := by
  unfold dictItems
  exact (filterMap_keys_aux _ (dictKeys d)).2 (List.nodup_dedup _)

theorem mkDemandCon_some (s : OptState) (c p : Ident) (di : DemandInfo) (con : Constr)
    (h : mkDemandCon s ((c, p), di) = some con) :
    con = ⟨ConKind.demand c p, s.facilities.map (fun f => (f, c, p)), true, di.demand⟩ := by
  have h2 : (if ∀ f ∈ s.facilities, (f, c, p) ∈ crossTriples s then
      some (⟨ConKind.demand c p, s.facilities.map (fun f => (f, c, p)), true,
        di.demand⟩ : Constr) else none) = some con := h
  by_cases hg : ∀ f ∈ s.facilities, (f, c, p) ∈ crossTriples s
  · rw [if_pos hg] at h2
    exact (Option.some.inj h2).symm
  · rw [if_neg hg] at h2
    exact absurd h2 (by simp)

theorem mkCapacityCon_some (s : OptState) (f p : Ident) (ci : CapacityInfo) (con : Constr)
    (h : mkCapacityCon s ((f, p), ci) = some con) :
    con = ⟨ConKind.capacity f p, s.customers.map (fun c => (f, c, p)), false,
      ci.capacity * (1 - ci.current_utilization)⟩ := by
  have h2 : (if ∀ c ∈ s.customers, (f, c, p) ∈ crossTriples s then
      some (⟨ConKind.capacity f p, s.customers.map (fun c => (f, c, p)), false,
        ci.capacity * (1 - ci.current_utilization)⟩ : Constr) else none) = some con := h
  by_cases hg : ∀ c ∈ s.customers, (f, c, p) ∈ crossTriples s
  · rw [if_pos hg] at h2
    exact (Option.some.inj h2).symm
  · rw [if_neg hg] at h2
    exact absurd h2 (by simp)

theorem filter_demandCons (s : OptState) (c p : Ident) :
    ∀ {items : List ((Ident × Ident) × DemandInfo)} {dcs : List Constr},
      List.Forall₂ (fun it con => mkDemandCon s it = some con) items dcs →
      dcs.filter (fun con => con.kind = ConKind.demand c p) =
        (items.filter (fun it => it.1 = (c, p))).map
          (fun it => ⟨ConKind.demand c p, s.facilities.map (fun f => (f, c, p)),
            true, it.2.demand⟩) := by
  intro items dcs h
  induction h with
  | nil => rfl
  | @cons it con items2 dcs2 hit htail ih =>
    obtain ⟨⟨c1, p1⟩, di1⟩ := it
    have hcon := mkDemandCon_some s c1 p1 di1 con hit
    subst hcon
    by_cases hkey : (c1, p1) = (c, p)
    · obtain ⟨rfl, rfl⟩ := Prod.mk.injEq .. ▸ hkey
      simp only [List.filter_cons]
      rw [if_pos (by simp), if_pos (by simp), List.map_cons, ih]
    · have h1 : ConKind.demand c1 p1 ≠ ConKind.demand c p := by
        intro hcp
        injection hcp with hc hp
        exact hkey (by rw [hc, hp])
      simp only [List.filter_cons]
      rw [if_neg (by simpa using h1), if_neg (by simpa using hkey), ih]

theorem filter_capacityCons (s : OptState) (f p : Ident) :
    ∀ {items : List ((Ident × Ident) × CapacityInfo)} {ccs : List Constr},
      List.Forall₂ (fun it con => mkCapacityCon s it = some con) items ccs →
      ccs.filter (fun con => con.kind = ConKind.capacity f p) =
        (items.filter (fun it => it.1 = (f, p))).map
          (fun it => ⟨ConKind.capacity f p, s.customers.map (fun c => (f, c, p)),
            false, it.2.capacity * (1 - it.2.current_utilization)⟩) := by
  intro items ccs h
  induction h with
  | nil => rfl
  | @cons it con items2 ccs2 hit htail ih =>
    obtain ⟨⟨f1, p1⟩, ci1⟩ := it
    have hcon := mkCapacityCon_some s f1 p1 ci1 con hit
    subst hcon
    by_cases hkey : (f1, p1) = (f, p)
    · obtain ⟨rfl, rfl⟩ := Prod.mk.injEq .. ▸ hkey
      simp only [List.filter_cons]
      rw [if_pos (by simp), if_pos (by simp), List.map_cons, ih]
    · have h1 : ConKind.capacity f1 p1 ≠ ConKind.capacity f p := by
        intro hcp
        injection hcp with hc hp
        exact hkey (by rw [hc, hp])
      simp only [List.filter_cons]
      rw [if_neg (by simpa using h1), if_neg (by simpa using hkey), ih]

theorem filter_key_unique {κ ν : Type} [DecidableEq κ] (k : κ) :
    ∀ (l : List (κ × ν)), (l.map Prod.fst).Nodup →
      (∀ v, (k, v) ∈ l → l.filter (fun it => it.1 = k) = [(k, v)]) ∧
      (k ∉ l.map Prod.fst → l.filter (fun it => it.1 = k) = []) := by
  intro l
  induction l with
  | nil => simp
  | cons kv l ih =>
    intro hnd
    rw [List.map_cons, List.nodup_cons] at hnd
    constructor
    · intro v hv
      rcases List.mem_cons.mp hv with heq | hv
      · rw [List.filter_cons, if_pos (by rw [← heq]; simp)]
        rw [← heq]
        have : l.filter (fun it => it.1 = k) = [] := by
          refine (ih hnd.2).2 ?_
          rw [← heq] at hnd
          exact hnd.1
        rw [this]
      · have hne : kv.1 ≠ k := by
          intro heq
          apply hnd.1
          rw [heq]
          exact List.mem_map.mpr ⟨(k, v), hv, rfl⟩
        rw [List.filter_cons, if_neg (by simpa using hne)]
        exact (ih hnd.2).1 v hv
    · intro hk
      have hne : ¬ (kv.1 = k) := fun heq => hk (by rw [List.map_cons]; exact heq ▸ List.mem_cons_self _ _)
      rw [List.filter_cons, if_neg (by simpa using hne)]
      exact (ih hnd.2).2 (fun hmem => hk (List.mem_cons_of_mem _ hmem))

theorem create_model_parts (s : OptState) (m : Model)
    (hm : create_optimization_model s = some m) :
    m.varIndex = crossTriples s ∧
    List.Forall₂ (fun t b => (objCoeff s t).map (fun k => (t, k)) = some b)
      (crossTriples s) m.objTerms ∧
    ∃ dcs ccs,
      m.constrs = dcs ++ ccs ∧
      List.Forall₂ (fun it con => mkDemandCon s it = some con)
        (dictItems s.demand_data) dcs ∧
      List.Forall₂ (fun it con => mkCapacityCon s it = some con)
        (dictItems s.capacity_data) ccs := by
  unfold create_optimization_model at hm
  cases h1 : optionMapAll (fun t => (objCoeff s t).map (fun k => (t, k))) (crossTriples s) with
  | none => rw [h1] at hm; exact absurd hm (by simp)
  | some objTerms =>
    cases h2 : optionMapAll (mkDemandCon s) (dictItems s.demand_data) with
    | none => rw [h1, h2] at hm; exact absurd hm (by simp)
    | some dcs =>
      cases h3 : optionMapAll (mkCapacityCon s) (dictItems s.capacity_data) with
      | none => rw [h1, h2, h3] at hm; exact absurd hm (by simp)
      | some ccs =>
        rw [h1, h2, h3] at hm
        simp only [Option.some.injEq] at hm
        subst hm
        exact ⟨rfl, optionMapAll_forall2 _ h1, dcs, ccs, rfl,
          optionMapAll_forall2 _ h2, optionMapAll_forall2 _ h3⟩

/-- Claim C2. The built model contains exactly one demand constraint
Σ_f quantity(f,c,p) ≥ demand(c,p) for every (c,p) pair present in the demand
table, exactly one capacity constraint Σ_c quantity(f,c,p) ≤
capacity(f,p) × (1 − utilization(f,p)) for every (f,p) pair present in the
capacity table, and no demand or capacity constraint for pairs absent from
those tables. -/
theorem constraints_exactly_from_tables (s : OptState) (m : Model)
    (hm : create_optimization_model s = some m) :
    (∀ c p di, dictGet (c, p) s.demand_data = some di →
      m.constrs.filter (fun con => con.kind = ConKind.demand c p) =
        [⟨ConKind.demand c p, s.facilities.map (fun f => (f, c, p)), true, di.demand⟩]) ∧
    (∀ c p, dictGet (c, p) s.demand_data = none →
      m.constrs.filter (fun con => con.kind = ConKind.demand c p) = []) ∧
    (∀ f p ci, dictGet (f, p) s.capacity_data = some ci →
      m.constrs.filter (fun con => con.kind = ConKind.capacity f p) =
        [⟨ConKind.capacity f p, s.customers.map (fun c => (f, c, p)), false,
          ci.capacity * (1 - ci.current_utilization)⟩]) ∧
    (∀ f p, dictGet (f, p) s.capacity_data = none →
      m.constrs.filter (fun con => con.kind = ConKind.capacity f p) = []) := by
  obtain ⟨_, _, dcs, ccs, hcons, hdf, hcf⟩ := create_model_parts s m hm
  have hccs_demand : ∀ c p, ccs.filter (fun con => con.kind = ConKind.demand c p) = [] := by
    intro c p
    rw [List.filter_eq_nil_iff]
    intro con hcon
    rcases forall2_mem_right hcf con hcon with ⟨⟨⟨f1, p1⟩, ci1⟩, _, hrel⟩
    have hk := mkCapacityCon_some s f1 p1 ci1 con hrel
    subst hk
    simp
  have hdcs_cap : ∀ f p, dcs.filter (fun con => con.kind = ConKind.capacity f p) = [] := by
    intro f p
    rw [List.filter_eq_nil_iff]
    intro con hcon
    rcases forall2_mem_right hdf con hcon with ⟨⟨⟨c1, p1⟩, di1⟩, _, hrel⟩
    have hk := mkDemandCon_some s c1 p1 di1 con hrel
    subst hk
    simp
  refine ⟨?_, ?_, ?_, ?_⟩
  · intro c p di hdi
    rw [hcons, List.filter_append, hccs_demand c p, List.append_nil,
      filter_demandCons s c p hdf,
      (filter_key_unique (c, p) (dictItems s.demand_data)
        (dictItems_keys_nodup _)).1 di ((mem_dictItems _ _ _).mpr hdi)]
    rfl
  · intro c p hnone
    rw [hcons, List.filter_append, hccs_demand c p, List.append_nil,
      filter_demandCons s c p hdf,
      (filter_key_unique (c, p) (dictItems s.demand_data)
        (dictItems_keys_nodup _)).2 (dictItems_key_not_mem _ _ hnone)]
    rfl
  · intro f p ci hci
    rw [hcons, List.filter_append, hdcs_cap f p, List.nil_append,
      filter_capacityCons s f p hcf,
      (filter_key_unique (f, p) (dictItems s.capacity_data)
        (dictItems_keys_nodup _)).1 ci ((mem_dictItems _ _ _).mpr hci)]
    rfl
  · intro f p hnone
    rw [hcons, List.filter_append, hdcs_cap f p, List.nil_append,
      filter_capacityCons s f p hcf,
      (filter_key_unique (f, p) (dictItems s.capacity_data)
        (dictItems_keys_nodup _)).2 (dictItems_key_not_mem _ _ hnone)]
    rfl

/-- Witness for claim C2 on the concrete scenario: the demand pair present in
the table yields exactly its one constraint, and an absent capacity pair
yields none. -/
theorem constraints_exactly_from_tables_witness :
    mS1.constrs.filter (fun con => con.kind = ConKind.demand sC1 sP1) =
      [⟨ConKind.demand sC1 sP1, [t111], true, 100⟩] ∧
    mS1.constrs.filter (fun con => con.kind = ConKind.capacity sC1 sP1) = [] := by
  constructor
  · have h := (constraints_exactly_from_tables scenario1 mS1 create_model_scenario1).1
      sC1 sP1 ⟨100, 3⟩ (by decide)
    simpa [scenario1, t111] using h
  · exact (constraints_exactly_from_tables scenario1 mS1 create_model_scenario1).2.2.2
      sC1 sP1 (by decide)

/-- The characters Python `strip(" _,\x27\x22")` removes from both ends of a
decoded identifier part (`optimizer.py` line 238). -/
def stripChars : List Char := [' ', '_', ',', squote, dquote]

/-- Decidable test for membership in the strip set. -/
def isStripChar (c : Char) : Bool := decide (c ∈ stripChars)

/-- Python `str.strip` with the strip set: remove such characters from both
ends of the string. -/
def pyStrip (l : List Char) : List Char :=
  ((l.dropWhile isStripChar).reverse.dropWhile isStripChar).reverse

/-- Python `str.split(d)` for a single-character separator `d`. -/
def splitOnChar (d : Char) : List Char → List (List Char)
  | [] => [[]]
  | c :: cs =>
    match splitOnChar d cs with
    | [] => [[]]
    | r :: rs => if c = d then [] :: r :: rs else (c :: r) :: rs

/-- The identifier parser of `generate_shipment_schedule` (`optimizer.py`
lines 235-242): the bracketed branch takes `split('(')[1].split(')')[0]`,
splits on commas and strips each part; the underscore branch takes
`split('_')` parts 1..3. `none` models the `IndexError` the surrounding
`except` clause turns into a skipped record. -/
def decodeVarName (name : List Char) : Option Triple :=
  if '(' ∈ name then
    match (splitOnChar '(' name)[1]? with
    | none => none
    | some seg =>
      match splitOnChar ')' seg with
      | [] => none
      | clean :: _ =>
        match ((splitOnChar ',' clean).map pyStrip)[0]?,
              ((splitOnChar ',' clean).map pyStrip)[1]?,
              ((splitOnChar ',' clean).map pyStrip)[2]? with
        | some f, some c, some p => some (f, c, p)
        | _, _, _ => none
  else
    match (splitOnChar '_' name)[1]?, (splitOnChar '_' name)[2]?,
          (splitOnChar '_' name)[3]? with
    | some f, some c, some p => some (f, c, p)
    | _, _, _ => none

/-- The characters the LP library replaces by an underscore in a variable
name ("-+[] ->/"). -/
def illegalChars : List Char := ['-', '+', '[', ']', ' ', '>', '/']

/-- Replace one illegal character by an underscore. -/
def sanitizeChar (c : Char) : Char := if c ∈ illegalChars then '_' else c

/-- Name sanitization applied by the LP library to a variable name. -/
def sanitize (l : List Char) : List Char := l.map sanitizeChar

/-- Python `str` of the key tuple `(f, c, p)`: `('f', 'c', 'p')`. -/
def pyReprTriple (f c p : Ident) : List Char :=
  '(' :: squote :: (f ++ squote :: ',' :: ' ' :: squote ::
    (c ++ squote :: ',' :: ' ' :: squote :: (p ++ [squote, ')'])))

/-- Modelled from the spec (§4.4, §9) and the naming scheme of the external
solver library (an external collaborator): the bracketed identifier form
`Shipment_('f',_'c',_'p')` assigned to a tuple-indexed decision variable —
the prefixed Python repr of the key with illegal characters sanitized. -/
def encodeBracketed (f c p : Ident) : Ident :=
  sanitize ("Shipment_".toList ++ pyReprTriple f c p)

/-- Modelled from the spec (§4.4): the delimiter-joined identifier form
`Shipment_f_c_p` that the decoder underscore branch expects. -/
def encodeJoined (f c p : Ident) : Ident :=
  "Shipment_".toList ++ (f ++ ('_' :: (c ++ ('_' :: p))))

/-- The delimiter, quoting, strip and sanitized characters of the encodings.
Identifiers drawn from an alphabet excluding these round-trip exactly. -/
def delimChars : List Char :=
  ['(', ')', ',', squote, dquote, '_', '-', '+', '[', ']', ' ', '>', '/']

/-- An id is good when none of its characters collide with the encoding. -/
def goodId (x : Ident) : Prop := ∀ ch ∈ x, ch ∉ delimChars

theorem splitOnChar_ne_nil (d : Char) : ∀ l, splitOnChar d l ≠ [] := by
  intro l
  induction l with
  | nil => simp [splitOnChar]
  | cons c cs ih =>
    rw [splitOnChar]
    cases h : splitOnChar d cs with
    | nil => simp
    | cons r rs =>
      by_cases hc : c = d
      · simp [hc]
      · simp [hc]

theorem splitOnChar_of_not_mem (d : Char) : ∀ l, d ∉ l → splitOnChar d l = [l] := by
  intro l
  induction l with
  | nil => intro _; rfl
  | cons c cs ih =>
    intro hmem
    have hc : c ≠ d := fun h => hmem (h ▸ List.mem_cons_self _ _)
    have hcs : d ∉ cs := fun h => hmem (List.mem_cons_of_mem _ h)
    rw [splitOnChar, ih hcs]
    simp [hc]

theorem splitOnChar_append (d : Char) :
    ∀ xs ys, d ∉ xs → splitOnChar d (xs ++ d :: ys) = xs :: splitOnChar d ys := by
  intro xs
  induction xs with
  | nil =>
    intro ys _
    rw [List.nil_append, splitOnChar]
    cases h : splitOnChar d ys with
    | nil => exact absurd h (splitOnChar_ne_nil d ys)
    | cons r rs => simp
  | cons x xs ih =>
    intro ys hmem
    have hx : x ≠ d := fun h => hmem (h ▸ List.mem_cons_self _ _)
    have hxs : d ∉ xs := fun h => hmem (List.mem_cons_of_mem _ h)
    rw [List.cons_append, splitOnChar, ih ys hxs]
    simp [hx]

theorem dropWhile_append_all {p : Char → Bool} :
    ∀ {xs : List Char}, (∀ c ∈ xs, p c = true) →
      ∀ ys, (xs ++ ys).dropWhile p = ys.dropWhile p := by
  intro xs
  induction xs with
  | nil => intro _ ys; rfl
  | cons x xs ih =>
    intro hall ys
    rw [List.cons_append, List.dropWhile_cons, if_pos (hall x (by simp))]
    exact ih (fun c hc => hall c (by simp [hc])) ys

theorem dropWhile_of_all_neg {p : Char → Bool} {xs : List Char}
    (h : ∀ c ∈ xs, p c = false) : xs.dropWhile p = xs := by
  cases xs with
  | nil => rfl
  | cons x xs =>
    rw [List.dropWhile_cons, if_neg (by simp [h x (by simp)])]

theorem pyStrip_sandwich (pre post xs : List Char)
    (hpre : ∀ c ∈ pre, isStripChar c = true) (hpost : ∀ c ∈ post, isStripChar c = true)
    (hxs : ∀ c ∈ xs, isStripChar c = false) :
    pyStrip (pre ++ (xs ++ post)) = xs := by
  unfold pyStrip
  rw [dropWhile_append_all hpre]
  cases xs with
  | nil =>
    rw [List.nil_append, ← List.append_nil post, dropWhile_append_all hpost]
    rfl
  | cons x xs2 =>
    rw [List.cons_append, List.dropWhile_cons, if_neg (by simp [hxs x (by simp)])]
    rw [show (x :: (xs2 ++ post)).reverse = post.reverse ++ (x :: xs2).reverse by
      rw [← List.cons_append, List.reverse_append]]
    rw [dropWhile_append_all (fun ch hch => hpost ch (List.mem_reverse.mp hch))]
    rw [dropWhile_of_all_neg (fun ch hch => hxs ch (List.mem_reverse.mp hch))]
    exact List.reverse_reverse _

theorem sanitize_append (a b : List Char) :
    sanitize (a ++ b) = sanitize a ++ sanitize b := by
  unfold sanitize
  exact List.map_append _ a b

theorem sanitize_cons (ch : Char) (l : List Char) :
    sanitize (ch :: l) = sanitizeChar ch :: sanitize l := rfl

theorem sanitize_good (x : Ident) (hx : goodId x) : sanitize x = x := by
  unfold sanitize
  induction x with
  | nil => rfl
  | cons ch l ih =>
    rw [List.map_cons]
    have h1 : ch ∉ delimChars := hx ch (by simp)
    have h2 : sanitizeChar ch = ch := by
      unfold sanitizeChar
      rw [if_neg]
      intro hmem
      apply h1
      revert hmem
      simp [illegalChars, delimChars]
      tauto
    rw [h2, ih (fun c hc => hx c (by simp [hc]))]

/-- Tail of the bracketed name after the opening parenthesis (proof-layer
abbreviation). -/
def qtail (f c p : Ident) : List Char :=
  squote :: (f ++ squote :: ',' :: '_' :: squote ::
    (c ++ squote :: ',' :: '_' :: squote :: (p ++ [squote, ')'])))

/-- Same tail without the closing parenthesis (proof-layer abbreviation). -/
def qbody (f c p : Ident) : List Char :=
  squote :: (f ++ squote :: ',' :: '_' :: squote ::
    (c ++ squote :: ',' :: '_' :: squote :: (p ++ [squote])))

theorem encodeBracketed_eq (f c p : Ident) (hf : sanitize f = f)
    (hc : sanitize c = c) (hp : sanitize p = p) :
    encodeBracketed f c p = "Shipment_".toList ++ '(' :: qtail f c p := by
  unfold encodeBracketed pyReprTriple qtail
  rw [sanitize_append,
    show sanitize "Shipment_".toList = "Shipment_".toList from by decide]
  congr 1
  rw [sanitize_cons, sanitize_cons, sanitize_append, hf,
    sanitize_cons, sanitize_cons, sanitize_cons, sanitize_cons, sanitize_append,
    hc,
    sanitize_cons, sanitize_cons, sanitize_cons, sanitize_cons, sanitize_append,
    hp]
  rw [show sanitizeChar '(' = '(' from by decide,
    show sanitizeChar squote = squote from by decide,
    show sanitizeChar ',' = ',' from by decide,
    show sanitizeChar ' ' = '_' from by decide,
    show sanitize [squote, ')'] = [squote, ')'] from by decide]

theorem goodId_facts (x : Ident) (hx : goodId x) :
    ('(' : Char) ∉ x ∧ (')' : Char) ∉ x ∧ (',' : Char) ∉ x ∧ ('_' : Char) ∉ x ∧
      ∀ ch ∈ x, isStripChar ch = false := by
  refine ⟨fun h => hx _ h (by decide), fun h => hx _ h (by decide),
    fun h => hx _ h (by decide), fun h => hx _ h (by decide), ?_⟩
  intro ch hch
  have hd := hx ch hch
  unfold isStripChar
  simp only [decide_eq_false_iff_not]
  intro hmem
  apply hd
  revert hmem
  simp [stripChars, delimChars]
  tauto

theorem not_mem_cons_of {α : Type} {ch x : α} {l : List α}
    (h1 : ch ≠ x) (h2 : ch ∉ l) : ch ∉ x :: l := by
  simp only [List.mem_cons, not_or]
  exact ⟨h1, h2⟩

theorem not_mem_app {α : Type} {ch : α} {a b : List α}
    (ha : ch ∉ a) (hb : ch ∉ b) : ch ∉ a ++ b := by
  simp only [List.mem_append, not_or]
  exact ⟨ha, hb⟩

theorem decode_encodeBracketed (f c p : Ident)
    (hf : goodId f) (hc : goodId c) (hp : goodId p) :
    decodeVarName (encodeBracketed f c p) = some (f, c, p) := by
  obtain ⟨hf1, hf2, hf3, hf4, hf5⟩ := goodId_facts f hf
  obtain ⟨hc1, hc2, hc3, hc4, hc5⟩ := goodId_facts c hc
  obtain ⟨hp1, hp2, hp3, hp4, hp5⟩ := goodId_facts p hp
  rw [encodeBracketed_eq f c p (sanitize_good f hf) (sanitize_good c hc) (sanitize_good p hp)]
  have htail_nopar : ('(' : Char) ∉ qtail f c p := by
    unfold qtail
    exact not_mem_cons_of (by decide) (not_mem_app hf1 (not_mem_cons_of (by decide)
      (not_mem_cons_of (by decide) (not_mem_cons_of (by decide) (not_mem_cons_of (by decide)
      (not_mem_app hc1 (not_mem_cons_of (by decide) (not_mem_cons_of (by decide)
      (not_mem_cons_of (by decide) (not_mem_cons_of (by decide)
      (not_mem_app hp1 (by decide))))))))))))
  have hparen : ('(' : Char) ∈ "Shipment_".toList ++ '(' :: qtail f c p :=
    List.mem_append_right _ (List.mem_cons_self _ _)
  have split1 : splitOnChar '(' ("Shipment_".toList ++ '(' :: qtail f c p) =
      ["Shipment_".toList, qtail f c p] := by
    rw [splitOnChar_append _ _ _ (by decide), splitOnChar_of_not_mem _ _ htail_nopar]
  have hqtail : qtail f c p = qbody f c p ++ [')'] := by
    unfold qtail qbody
    simp
  have hbody_norpar : (')' : Char) ∉ qbody f c p := by
    unfold qbody
    exact not_mem_cons_of (by decide) (not_mem_app hf2 (not_mem_cons_of (by decide)
      (not_mem_cons_of (by decide) (not_mem_cons_of (by decide) (not_mem_cons_of (by decide)
      (not_mem_app hc2 (not_mem_cons_of (by decide) (not_mem_cons_of (by decide)
      (not_mem_cons_of (by decide) (not_mem_cons_of (by decide)
      (not_mem_app hp2 (by decide))))))))))))
  have split2 : splitOnChar ')' (qtail f c p) = [qbody f c p, []] := by
    rw [hqtail, show (qbody f c p ++ [')'] : List Char) = qbody f c p ++ ')' :: [] from rfl,
      splitOnChar_append _ _ _ hbody_norpar]
    rfl
  have hbody_parts : qbody f c p =
      (squote :: (f ++ [squote])) ++ ',' :: (('_' :: squote :: (c ++ [squote])) ++
        ',' :: ('_' :: squote :: (p ++ [squote]))) := by
    unfold qbody
    simp
  have hnc1 : (',' : Char) ∉ squote :: (f ++ [squote]) :=
    not_mem_cons_of (by decide) (not_mem_app hf3 (by decide))
  have hnc2 : (',' : Char) ∉ '_' :: squote :: (c ++ [squote]) :=
    not_mem_cons_of (by decide) (not_mem_cons_of (by decide) (not_mem_app hc3 (by decide)))
  have hnc3 : (',' : Char) ∉ '_' :: squote :: (p ++ [squote]) :=
    not_mem_cons_of (by decide) (not_mem_cons_of (by decide) (not_mem_app hp3 (by decide)))
  have split3 : splitOnChar ',' (qbody f c p) =
      [squote :: (f ++ [squote]), '_' :: squote :: (c ++ [squote]),
        '_' :: squote :: (p ++ [squote])] := by
    rw [hbody_parts, splitOnChar_append _ _ _ hnc1, splitOnChar_append _ _ _ hnc2,
      splitOnChar_of_not_mem _ _ hnc3]
  have hstrip1 : pyStrip (squote :: (f ++ [squote])) = f := by
    have := pyStrip_sandwich [squote] [squote] f (by decide) (by decide) hf5
    simpa using this
  have hstrip2 : pyStrip ('_' :: squote :: (c ++ [squote])) = c := by
    have := pyStrip_sandwich ['_', squote] [squote] c (by decide) (by decide) hc5
    simpa using this
  have hstrip3 : pyStrip ('_' :: squote :: (p ++ [squote])) = p := by
    have := pyStrip_sandwich ['_', squote] [squote] p (by decide) (by decide) hp5
    simpa using this
  unfold decodeVarName
  rw [if_pos hparen, split1]
  simp only [List.getElem?_cons_succ, List.getElem?_cons_zero]
  rw [split2]
  simp only []
  rw [split3]
  simp only [List.map_cons, List.map_nil, hstrip1, hstrip2, hstrip3,
    List.getElem?_cons_succ, List.getElem?_cons_zero]

theorem decode_encodeJoined (f c p : Ident)
    (hf : goodId f) (hc : goodId c) (hp : goodId p) :
    decodeVarName (encodeJoined f c p) = some (f, c, p) := by
  obtain ⟨hf1, _, _, hf4, _⟩ := goodId_facts f hf
  obtain ⟨hc1, _, _, hc4, _⟩ := goodId_facts c hc
  obtain ⟨hp1, _, _, hp4, _⟩ := goodId_facts p hp
  have hnopar : ('(' : Char) ∉ encodeJoined f c p := by
    unfold encodeJoined
    exact not_mem_app (by decide) (not_mem_app hf1
      (not_mem_cons_of (by decide) (not_mem_app hc1 (not_mem_cons_of (by decide) hp1))))
  have hshape : encodeJoined f c p =
      "Shipment".toList ++ '_' :: (f ++ '_' :: (c ++ '_' :: p)) := by
    unfold encodeJoined
    simp
  have split4 : splitOnChar '_' (encodeJoined f c p) =
      ["Shipment".toList, f, c, p] := by
    rw [hshape, splitOnChar_append _ _ _ (by decide), splitOnChar_append _ _ _ hf4,
      splitOnChar_append _ _ _ hc4, splitOnChar_of_not_mem _ _ hp4]
  unfold decodeVarName
  rw [if_neg hnopar, split4]
  simp only [List.getElem?_cons_succ, List.getElem?_cons_zero]

/-- Claim C5. For ids drawn from an alphabet excluding the encoding's
delimiter characters, decoding the identifier produced by encoding (f, c, p)
recovers exactly (f, c, p), for both the bracketed and the delimiter-joined
identifier forms. -/
theorem decode_left_inverse_of_encode (f c p : Ident)
    (hf : goodId f) (hc : goodId c) (hp : goodId p) :
    decodeVarName (encodeBracketed f c p) = some (f, c, p) ∧
    decodeVarName (encodeJoined f c p) = some (f, c, p) :=
  ⟨decode_encodeBracketed f c p hf hc hp, decode_encodeJoined f c p hf hc hp⟩

/-- Witness for claim C5 at the concrete ids F1, C1, P1. -/
theorem decode_left_inverse_of_encode_witness :
    decodeVarName (encodeBracketed sF1 sC1 sP1) = some (sF1, sC1, sP1) ∧
    decodeVarName (encodeJoined sF1 sC1 sP1) = some (sF1, sC1, sP1) :=
  decode_left_inverse_of_encode sF1 sC1 sP1 (by unfold goodId; decide)
    (by unfold goodId; decide) (by unfold goodId; decide)

/-- Claim C6 counterexample: the id `A,B` contains the comma delimiter of the
encoding, yet decoding its encoded identifier raises nothing and returns the
mis-assigned triple (A, B, C1) — the decoder has no delimiter-collision check
and no `DecodeAmbiguityError` exists anywhere in the code. -/
theorem decode_ambiguity_counterexample :
    decodeVarName (encodeBracketed "A,B".toList sC1 sP1) =
      some ("A".toList, "B".toList, sC1) ∧
    ("A".toList, "B".toList, sC1) ≠ (("A,B".toList : Ident), sC1, sP1) := by
  constructor
  · decide
  · decide

/-- Claim C6 amended. When the facility id contains the comma delimiter
(f = f1 ++ comma ++ f2 with otherwise clean parts), the decoder silently
returns the mis-assigned triple (f1, f2, c) instead of raising a structured
decode error: the first fragment becomes the facility, the second the
customer, and the true customer becomes the product. -/
theorem decode_ambiguity_silent_misassignment (f1 f2 c p : Ident)
    (h1 : goodId f1) (h2 : goodId f2) (hc : goodId c) (hp : goodId p) :
    decodeVarName (encodeBracketed (f1 ++ ',' :: f2) c p) = some (f1, f2, c) := by
  obtain ⟨hf11, hf12, hf13, _, hf15⟩ := goodId_facts f1 h1
  obtain ⟨hf21, hf22, hf23, _, hf25⟩ := goodId_facts f2 h2
  obtain ⟨hc1, hc2, hc3, _, hc5⟩ := goodId_facts c hc
  obtain ⟨hp1, hp2, hp3, _, hp5⟩ := goodId_facts p hp
  have hsanf : sanitize (f1 ++ ',' :: f2) = f1 ++ ',' :: f2 := by
    rw [sanitize_append, sanitize_cons, sanitize_good f1 h1, sanitize_good f2 h2,
      show sanitizeChar ',' = ',' from by decide]
  rw [encodeBracketed_eq _ c p hsanf (sanitize_good c hc) (sanitize_good p hp)]
  have htail_nopar : ('(' : Char) ∉ qtail (f1 ++ ',' :: f2) c p := by
    unfold qtail
    simp +decide [List.mem_cons, List.mem_append, hf11, hf21, hc1, hp1]
  have hparen : ('(' : Char) ∈ "Shipment_".toList ++ '(' :: qtail (f1 ++ ',' :: f2) c p :=
    List.mem_append_right _ (List.mem_cons_self _ _)
  have split1 : splitOnChar '(' ("Shipment_".toList ++ '(' :: qtail (f1 ++ ',' :: f2) c p) =
      ["Shipment_".toList, qtail (f1 ++ ',' :: f2) c p] := by
    rw [splitOnChar_append _ _ _ (by decide), splitOnChar_of_not_mem _ _ htail_nopar]
  have hqtail : qtail (f1 ++ ',' :: f2) c p = qbody (f1 ++ ',' :: f2) c p ++ [')'] := by
    unfold qtail qbody
    simp
  have hbody_norpar : (')' : Char) ∉ qbody (f1 ++ ',' :: f2) c p := by
    unfold qbody
    simp +decide [List.mem_cons, List.mem_append, hf12, hf22, hc2, hp2]
  have split2 : splitOnChar ')' (qtail (f1 ++ ',' :: f2) c p) =
      [qbody (f1 ++ ',' :: f2) c p, []] := by
    rw [hqtail, show (qbody (f1 ++ ',' :: f2) c p ++ [')'] : List Char) =
        qbody (f1 ++ ',' :: f2) c p ++ ')' :: [] from rfl,
      splitOnChar_append _ _ _ hbody_norpar]
    rfl
  have hbody_parts : qbody (f1 ++ ',' :: f2) c p =
      (squote :: f1) ++ ',' :: ((f2 ++ [squote]) ++
        ',' :: (('_' :: squote :: (c ++ [squote])) ++
          ',' :: ('_' :: squote :: (p ++ [squote])))) := by
    unfold qbody
    simp
  have hnc1 : (',' : Char) ∉ squote :: f1 := not_mem_cons_of (by decide) hf13
  have hnc2 : (',' : Char) ∉ f2 ++ [squote] := not_mem_app hf23 (by decide)
  have hnc3 : (',' : Char) ∉ '_' :: squote :: (c ++ [squote]) :=
    not_mem_cons_of (by decide) (not_mem_cons_of (by decide) (not_mem_app hc3 (by decide)))
  have hnc4 : (',' : Char) ∉ '_' :: squote :: (p ++ [squote]) :=
    not_mem_cons_of (by decide) (not_mem_cons_of (by decide) (not_mem_app hp3 (by decide)))
  have split3 : splitOnChar ',' (qbody (f1 ++ ',' :: f2) c p) =
      [squote :: f1, f2 ++ [squote], '_' :: squote :: (c ++ [squote]),
        '_' :: squote :: (p ++ [squote])] := by
    rw [hbody_parts, splitOnChar_append _ _ _ hnc1, splitOnChar_append _ _ _ hnc2,
      splitOnChar_append _ _ _ hnc3, splitOnChar_of_not_mem _ _ hnc4]
  have hstrip1 : pyStrip (squote :: f1) = f1 := by
    have := pyStrip_sandwich [squote] [] f1 (by decide) (by decide) hf15
    simpa using this
  have hstrip2 : pyStrip (f2 ++ [squote]) = f2 := by
    have := pyStrip_sandwich [] [squote] f2 (by decide) (by decide) hf25
    simpa using this
  have hstrip3 : pyStrip ('_' :: squote :: (c ++ [squote])) = c := by
    have := pyStrip_sandwich ['_', squote] [squote] c (by decide) (by decide) hc5
    simpa using this
  unfold decodeVarName
  rw [if_pos hparen, split1]
  simp only [List.getElem?_cons_succ, List.getElem?_cons_zero]
  rw [split2]
  simp only []
  rw [split3]
  simp only [List.map_cons, List.map_nil, hstrip1, hstrip2, hstrip3,
    List.getElem?_cons_succ, List.getElem?_cons_zero]

/-- Witness for the amended claim C6 at concrete fragments A and B. -/
theorem decode_ambiguity_silent_misassignment_witness :
    decodeVarName (encodeBracketed ("A".toList ++ ',' :: "B".toList) sC1 sP1) =
      some ("A".toList, "B".toList, sC1) :=
  decode_ambiguity_silent_misassignment "A".toList "B".toList sC1 sP1
    (by unfold goodId; decide) (by unfold goodId; decide)
    (by unfold goodId; decide) (by unfold goodId; decide)

/-- The solver status outcomes of the LP library (`LpStatus`). -/
inductive SolverStatus
| optimal | notSolved | infeasible | unbounded | undefined
deriving DecidableEq

/-- The display name `LpStatus[self.problem.status]` of each status code. -/
def SolverStatus.statusName : SolverStatus → String
  | optimal => "Optimal"
  | notSolved => "Not Solved"
  | infeasible => "Infeasible"
  | unbounded => "Unbounded"
  | undefined => "Undefined"

/-- The `self.solution` dict the method `solve` builds. -/
structure PySolution where
  status : String
  varMap : List (Ident × ℚ)
  total_cost : Option ℚ
deriving DecidableEq

/-- The quantity filter of `solve` (`optimizer.py` line 214): `v.varValue > 0`,
an exact comparison against zero. -/
def keepQuantity (v : ℚ) : Bool := decide (0 < v)

/-- The solver-assigned name of the decision variable of a triple. -/
def encodeTriple (t : Triple) : Ident := encodeBracketed t.1 t.2.1 t.2.2

/-- The method `solve` (`optimizer.py` lines 198-224). The solver itself is an
external black box reporting a status `st` and per-variable values `vals`: on
Optimal the method stores the objective value as the total cost and the
positively-valued variables; on any other status it stores nothing. -/
def solve (m : Model) (st : SolverStatus) (vals : Triple → ℚ) : PySolution :=
  if st = SolverStatus.optimal then
    { status := st.statusName
      varMap := m.varIndex.filterMap (fun t =>
        if keepQuantity (vals t) then some (encodeTriple t, vals t) else none)
      total_cost := some (evalObj m vals) }
  else
    { status := st.statusName, varMap := [], total_cost := none }

/-- One row of the generated shipment schedule (the DataFrame row shape). -/
structure ShipmentRow where
  Facility : Ident
  Facility_Location : String
  Facility_Type : String
  Customer : Ident
  Customer_Region : String
  Customer_SLA : String
  Product : Ident
  Product_Category : String
  Product_Weight : ℚ
  Quantity : ℚ
  Unit_Cost : ℚ
  Transit_Time : ℚ
  Total_Cost : ℚ
  Is_Perishable : Bool
  Product_Value : ℚ
deriving DecidableEq

/-- Build one schedule row (`optimizer.py` lines 244-266): every attribute is
fetched with a `.get` default, so missing table entries yield the zero-valued
fallbacks. -/
def mkRow (s : OptState) (f c p : Ident) (qty : ℚ) : ShipmentRow :=
  { Facility := f
    Facility_Location := ((dictGet f s.facility_details).map (·.location)).getD ""
    Facility_Type := ((dictGet f s.facility_details).map (·.ftype)).getD ""
    Customer := c
    Customer_Region := ((dictGet c s.customer_details).map (·.region)).getD ""
    Customer_SLA := ((dictGet c s.customer_details).map (·.service_level_agreement)).getD ""
    Product := p
    Product_Category := ((dictGet p s.product_details).map (·.category)).getD ""
    Product_Weight := ((dictGet p s.product_details).map (·.weight)).getD 0
    Quantity := qty
    Unit_Cost := ((dictGet (f, c, p) s.cost_matrix).map (·.cost_per_unit)).getD 0
    Transit_Time := ((dictGet (f, c, p) s.cost_matrix).map (·.transit_time_days)).getD 0
    Total_Cost := qty * ((dictGet (f, c, p) s.cost_matrix).map (·.cost_per_unit)).getD 0
    Is_Perishable := ((dictGet p s.product_details).map (·.is_perishable)).getD false
    Product_Value := ((dictGet p s.product_details).map (·.value)).getD 0 }

/-- Lexicographic comparison of two char-list ids by code point. -/
def identLE : Ident → Ident → Bool
  | [], _ => true
  | _ :: _, [] => false
  | a :: as, b :: bs =>
    if a.val < b.val then true
    else if b.val < a.val then false
    else identLE as bs

/-- The schedule sort key (Facility, Customer, Product). -/
def rowLE (r1 r2 : ShipmentRow) : Bool :=
  if r1.Facility ≠ r2.Facility then identLE r1.Facility r2.Facility
  else if r1.Customer ≠ r2.Customer then identLE r1.Customer r2.Customer
  else identLE r1.Product r2.Product

/-- The method `generate_shipment_schedule` (`optimizer.py` lines 226-275):
`none` unless a stored solution exists with status Optimal; otherwise each
stored variable name is parsed (rows that fail to parse are skipped), table
attributes are joined, and the rows are sorted by facility, customer and
product; `none` again when no row could be built. -/
def generate_shipment_schedule (s : OptState) (sol : Option PySolution) :
    Option (List ShipmentRow) :=
  match sol with
  | none => none
  | some sol =>
    if sol.status ≠ "Optimal" then none
    else
      let shipments := sol.varMap.filterMap (fun nv =>
        (decodeVarName nv.1).map (fun fcp => mkRow s fcp.1 fcp.2.1 fcp.2.2 nv.2))
      if shipments = [] then none
      else some (shipments.mergeSort rowLE)

/-- A state all of whose loaded ids avoid the encoding delimiters. -/
def goodState (s : OptState) : Prop :=
  (∀ f ∈ s.facilities, goodId f) ∧ (∀ c ∈ s.customers, goodId c) ∧
    ∀ p ∈ s.products, goodId p

theorem crossTriples_components (s : OptState) (t : Triple) (ht : t ∈ crossTriples s) :
    t.1 ∈ s.facilities ∧ t.2.1 ∈ s.customers ∧ t.2.2 ∈ s.products := by
  unfold crossTriples at ht
  simp only [List.mem_flatMap, List.mem_map] at ht
  obtain ⟨f, hf, c, hc, p, hp, rfl⟩ := ht
  exact ⟨hf, hc, hp⟩

theorem encodeTriple_inj_on_good (t u : Triple)
    (htg : goodId t.1 ∧ goodId t.2.1 ∧ goodId t.2.2)
    (hug : goodId u.1 ∧ goodId u.2.1 ∧ goodId u.2.2)
    (h : encodeTriple t = encodeTriple u) : t = u := by
  have h1 := decode_encodeBracketed t.1 t.2.1 t.2.2 htg.1 htg.2.1 htg.2.2
  have h2 := decode_encodeBracketed u.1 u.2.1 u.2.2 hug.1 hug.2.1 hug.2.2
  unfold encodeTriple at h
  rw [h, h2] at h1
  injection h1 with h1
  exact h1.symm

/-- The infeasible scenario of spec §8: demand 100 against capacity 50. -/
def scenario2 : OptState := { scenario1 with capacity_data := [((sF1, sP1), ⟨50, 0⟩)] }

/-- The model the builder produces from `scenario2`. -/
def mS2 : Model :=
  { varIndex := [t111],
    objTerms := [(t111, 12)],
    constrs := [⟨ConKind.demand sC1 sP1, [t111], true, 100⟩,
                ⟨ConKind.capacity sF1 sP1, [t111], false, 50⟩] }

theorem create_model_scenario2 : create_optimization_model scenario2 = some mS2 := by
  norm_num [create_optimization_model, crossTriples, scenario2, scenario1, optionMapAll,
    objCoeff, dictGet, dictItems, dictKeys, mkDemandCon, mkCapacityCon, mS2, t111,
    sF1, sC1, sP1]

/-- Claim C7. On any non-Optimal solver status the stored solution keeps no
total cost and no variables and schedule generation yields nothing; and the
demand-100 / capacity-50 scenario builds a model whose feasible region is
empty (so a sound solver must report Infeasible, whose display name is the
string the schedule check uses). -/
theorem non_optimal_no_partial_output :
    (∀ (m : Model) (st : SolverStatus) (vals : Triple → ℚ),
      st ≠ SolverStatus.optimal →
      (solve m st vals).total_cost = none ∧ (solve m st vals).varMap = [] ∧
      ∀ s : OptState, generate_shipment_schedule s (some (solve m st vals)) = none) ∧
    create_optimization_model scenario2 = some mS2 ∧
    {q : Triple → ℚ | feasibleModel mS2 q} = ∅ ∧
    SolverStatus.infeasible.statusName = "Infeasible" := by
  refine ⟨?_, create_model_scenario2, ?_, rfl⟩
  · intro m st vals hst
    have hsolve : solve m st vals =
        { status := st.statusName, varMap := [], total_cost := none } := by
      unfold solve
      rw [if_neg hst]
    refine ⟨by rw [hsolve], by rw [hsolve], ?_⟩
    intro s
    rw [hsolve]
    unfold generate_shipment_schedule
    dsimp only
    rw [if_pos]
    cases st with
    | optimal => exact absurd rfl hst
    | notSolved => decide
    | infeasible => decide
    | unbounded => decide
    | undefined => decide
  · ext q
    simp only [Set.mem_setOf_eq, Set.mem_empty_iff_false, iff_false]
    intro hfeas
    have hd := hfeas.1 ⟨ConKind.demand sC1 sP1, [t111], true, 100⟩ (by simp [mS2])
    have hcap := hfeas.1 ⟨ConKind.capacity sF1 sP1, [t111], false, 50⟩ (by simp [mS2])
    simp only [conSatisfied, List.map_cons, List.map_nil, List.sum_cons,
      List.sum_nil, add_zero] at hd hcap
    norm_num at hd hcap
    linarith

/-- Witness for claim C7 at the Infeasible status on the scenario model. -/
theorem non_optimal_no_partial_output_witness :
    (solve mS2 SolverStatus.infeasible (fun _ => 0)).total_cost = none ∧
    (solve mS2 SolverStatus.infeasible (fun _ => 0)).varMap = [] ∧
    generate_shipment_schedule scenario2
      (some (solve mS2 SolverStatus.infeasible (fun _ => 0))) = none := by
  obtain ⟨h1, h2, h3⟩ := non_optimal_no_partial_output.1 mS2 SolverStatus.infeasible
    (fun _ => 0) (by decide)
  exact ⟨h1, h2, h3 scenario2⟩

/-- Claim C8 counterexample: no positive epsilon threshold reproduces the
filter of `solve` — the code keeps a quantity iff it strictly exceeds 0
exactly, so for any ε > 0 the quantity ε/2 is kept although it is ≤ ε. -/
theorem epsilon_filter_counterexample :
    {e : ℚ | 0 < e ∧ ∀ v : ℚ, keepQuantity v = decide (e < v)} = ∅ := by
  ext e
  simp only [Set.mem_setOf_eq, Set.mem_empty_iff_false, iff_false, not_and]
  intro he h
  have h2 := h (e / 2)
  have hpos : keepQuantity (e / 2) = true := by
    unfold keepQuantity
    simp only [decide_eq_true_eq]
    linarith
  rw [hpos] at h2
  have hlt : ¬ (e < e / 2) := by linarith
  simp [hlt] at h2

/-- Claim C8 amended. After an Optimal solve the stored variable mapping has
an entry for a decision variable iff its solved quantity strictly exceeds 0 —
an exact comparison against zero, with no epsilon threshold. -/
theorem stored_variables_iff_positive (s : OptState) (m : Model) (vals : Triple → ℚ)
    (hm : create_optimization_model s = some m) (hgood : goodState s)
    (t : Triple) (ht : t ∈ m.varIndex) :
    ((solve m SolverStatus.optimal vals).varMap.any
      (fun nv => nv.1 = encodeTriple t)) = true ↔ 0 < vals t := by
  have hvar : m.varIndex = crossTriples s := (create_model_parts s m hm).1
  have hgoodt : ∀ u ∈ m.varIndex, goodId u.1 ∧ goodId u.2.1 ∧ goodId u.2.2 := by
    intro u hu
    rw [hvar] at hu
    obtain ⟨h1, h2, h3⟩ := crossTriples_components s u hu
    exact ⟨hgood.1 _ h1, hgood.2.1 _ h2, hgood.2.2 _ h3⟩
  unfold solve
  rw [if_pos rfl]
  simp only [List.any_eq_true, decide_eq_true_eq, List.mem_filterMap]
  constructor
  · rintro ⟨nv, ⟨u, hu, hnv⟩, hname⟩
    by_cases hk : keepQuantity (vals u) = true
    · rw [if_pos hk] at hnv
      injection hnv with hnv
      subst hnv
      have : u = t := encodeTriple_inj_on_good u t (hgoodt u hu) (hgoodt t ht) hname
      subst this
      unfold keepQuantity at hk
      simpa using hk
    · rw [if_neg hk] at hnv
      exact absurd hnv (by simp)
  · intro hpos
    refine ⟨(encodeTriple t, vals t), ⟨t, ht, ?_⟩, rfl⟩
    rw [if_pos (by unfold keepQuantity; simpa using hpos)]

/-- Witness for the amended claim C8 on the concrete scenario. -/
theorem stored_variables_iff_positive_witness :
    (((solve mS1 SolverStatus.optimal (fun _ => 100)).varMap.any
      (fun nv => nv.1 = encodeTriple t111)) = true ↔ (0 : ℚ) < 100) ∧
    ((solve mS1 SolverStatus.optimal (fun _ => 100)).varMap.any
      (fun nv => nv.1 = encodeTriple t111)) = true := by
  have h := stored_variables_iff_positive scenario1 mS1 (fun _ => 100)
    create_model_scenario1 (by unfold goodState goodId; decide) t111 (by decide)
  exact ⟨h, h.mpr (by norm_num)⟩

/-- The scenario with utilization 3/2 > 1: available capacity 100 × (1 − 3/2)
is −50. -/
def scenarioNeg : OptState := { scenario1 with capacity_data := [((sF1, sP1), ⟨100, 3/2⟩)] }

/-- The model the builder produces from `scenarioNeg`. -/
def mNeg : Model :=
  { varIndex := [t111],
    objTerms := [(t111, 12)],
    constrs := [⟨ConKind.demand sC1 sP1, [t111], true, 100⟩,
                ⟨ConKind.capacity sF1 sP1, [t111], false, -50⟩] }

/-- Claim C9 counterexample: with utilization exceeding 1 the run does not
abort — no NegativeCapacityError exists anywhere in the code — and model
building succeeds, producing a capacity constraint with the negative bound
−50. -/
theorem negative_capacity_counterexample :
    create_optimization_model scenarioNeg = some mNeg ∧
    mNeg.constrs.filter (fun con => con.isGe = false) =
      [⟨ConKind.capacity sF1 sP1, [t111], false, -50⟩] := by
  constructor
  · norm_num [create_optimization_model, crossTriples, scenarioNeg, scenario1,
      optionMapAll, objCoeff, dictGet, dictItems, dictKeys, mkDemandCon,
      mkCapacityCon, mNeg, t111, sF1, sC1, sP1]
  · norm_num [mNeg]

/-- Claim C9 amended: utilization above 1 raises nothing; the model is silently
built with the negative available-capacity bound, and because the quantities
are bounded below by zero its feasible region is empty. -/
theorem negative_capacity_silent_infeasible :
    create_optimization_model scenarioNeg = some mNeg ∧
    {q : Triple → ℚ | feasibleModel mNeg q} = ∅ := by
  refine ⟨?_, ?_⟩
  · norm_num [create_optimization_model, crossTriples, scenarioNeg, scenario1,
      optionMapAll, objCoeff, dictGet, dictItems, dictKeys, mkDemandCon,
      mkCapacityCon, mNeg, t111, sF1, sC1, sP1]
  · ext q
    simp only [Set.mem_setOf_eq, Set.mem_empty_iff_false, iff_false]
    intro hfeas
    have hcap := hfeas.1 ⟨ConKind.capacity sF1 sP1, [t111], false, -50⟩ (by simp [mNeg])
    have hnn := hfeas.2 t111 (by simp [mNeg])
    simp only [conSatisfied, List.map_cons, List.map_nil, List.sum_cons,
      List.sum_nil, add_zero] at hcap
    norm_num at hcap
    linarith

/-- The report record `cost_savings_report` would print. -/
structure SavingsReport where
  baseline_cost : ℚ
  optimized_cost : ℚ
  savings : ℚ
  savings_pct : ℚ
deriving DecidableEq

/-- The method `cost_savings_report` (`optimizer.py` lines 317-329): it tests
`if not self.total_cost` — Python falsiness, which holds for both None and
0.0 — and returns without computing savings in that case. -/
def cost_savings_report (total_cost : Option ℚ) (baseline_cost : ℚ) :
    Option SavingsReport :=
  match total_cost with
  | none => none
  | some t =>
    if t = 0 then none
    else some ⟨baseline_cost, t, baseline_cost - t, (baseline_cost - t) / baseline_cost * 100⟩

/-- Claim C10. When the solver status is Optimal but the optimal total cost is
0, `cost_savings_report` treats the run as having no solution (truthiness of
0.0 is false) and returns without computing savings, indistinguishable at
this interface from a run that never stored a cost. -/
theorem zero_cost_report_indistinguishable (m : Model) (vals : Triple → ℚ) (b : ℚ)
    (h : evalObj m vals = 0) :
    (solve m SolverStatus.optimal vals).status = "Optimal" ∧
    cost_savings_report (solve m SolverStatus.optimal vals).total_cost b = none ∧
    cost_savings_report (solve m SolverStatus.optimal vals).total_cost b =
      cost_savings_report none b := by
  unfold solve
  rw [if_pos rfl]
  refine ⟨rfl, ?_, ?_⟩ <;> simp [cost_savings_report, h]

/-- The model with no variables at all: its objective value is 0. -/
def mEmpty : Model := { varIndex := [], objTerms := [], constrs := [] }

/-- Witness for claim C10 at the empty model, whose optimal cost is 0. -/
theorem zero_cost_report_indistinguishable_witness :
    (solve mEmpty SolverStatus.optimal (fun _ => 0)).status = "Optimal" ∧
    cost_savings_report (solve mEmpty SolverStatus.optimal (fun _ => 0)).total_cost 5 = none ∧
    cost_savings_report (solve mEmpty SolverStatus.optimal (fun _ => 0)).total_cost 5 =
      cost_savings_report none 5 :=
  zero_cost_report_indistinguishable mEmpty (fun _ => 0) 5 rfl

theorem forall2_mem_left {α β : Type} {R : α → β → Prop} :
    ∀ {l1 : List α} {l2 : List β}, List.Forall₂ R l1 l2 → ∀ a ∈ l1, ∃ b ∈ l2, R a b := by
  intro l1 l2 h
  induction h with
  | nil => simp
  | cons hab htail ih =>
    intro a ha
    rcases List.mem_cons.mp ha with rfl | ha
    · exact ⟨_, by simp, hab⟩
    · rcases ih a ha with ⟨b, hb, hr⟩
      exact ⟨b, by simp [hb], hr⟩

theorem sum_filterMap_elim {α β : Type} (g : β → ℚ) (h : α → Option β) (w : α → ℚ) :
    ∀ l : List α, (∀ a ∈ l, (h a).elim 0 g = w a) →
      ((l.filterMap h).map g).sum = (l.map w).sum := by
  intro l
  induction l with
  | nil => intro _; rfl
  | cons a l ih =>
    intro hpt
    have ha := hpt a (by simp)
    rw [List.filterMap_cons, List.map_cons, List.sum_cons]
    cases hh : h a with
    | none =>
      rw [hh] at ha
      simp only [Option.elim] at ha
      rw [ih (fun x hx => hpt x (by simp [hx])), ← ha, zero_add]
    | some b =>
      rw [hh] at ha
      simp only [Option.elim] at ha
      rw [List.map_cons, List.sum_cons, ih (fun x hx => hpt x (by simp [hx])), ha]

/-- Claim C4. For a run whose solver status is Optimal, summing
quantity × unit_cost × (1.2 if the product is perishable else 1.0) over the
rows of the generated shipment schedule reproduces the Solution's reported
total cost exactly (the embedding carries the float arithmetic in ℚ, so the
floating-point tolerance becomes exact equality). -/
theorem schedule_cost_matches_total (s : OptState) (m : Model) (vals : Triple → ℚ)
    (rows : List ShipmentRow)
    (hm : create_optimization_model s = some m) (hgood : goodState s)
    (hnn : ∀ t, 0 ≤ vals t)
    (hrows : generate_shipment_schedule s (some (solve m SolverStatus.optimal vals)) =
      some rows) :
    (solve m SolverStatus.optimal vals).total_cost =
      some ((rows.map (fun r => r.Quantity * r.Unit_Cost *
        (if r.Is_Perishable then (1.2 : ℚ) else 1.0))).sum) := by
  obtain ⟨hvar, hobj, _⟩ := create_model_parts s m hm
  have hsolve : solve m SolverStatus.optimal vals =
      { status := "Optimal"
        varMap := m.varIndex.filterMap (fun t =>
          if keepQuantity (vals t) then some (encodeTriple t, vals t) else none)
        total_cost := some (evalObj m vals) } := by
    unfold solve
    rw [if_pos rfl]
    rfl
  rw [hsolve] at hrows ⊢
  unfold generate_shipment_schedule at hrows
  dsimp only at hrows
  rw [if_neg (by simp)] at hrows
  by_cases hemp : (m.varIndex.filterMap (fun t =>
      if keepQuantity (vals t) then some (encodeTriple t, vals t) else none)).filterMap
      (fun nv => (decodeVarName nv.1).map (fun fcp => mkRow s fcp.1 fcp.2.1 fcp.2.2 nv.2)) = []
  · rw [if_pos hemp] at hrows
    exact absurd hrows (by simp)
  · rw [if_neg hemp] at hrows
    have hrows2 : rows = ((m.varIndex.filterMap (fun t =>
        if keepQuantity (vals t) then some (encodeTriple t, vals t) else none)).filterMap
        (fun nv => (decodeVarName nv.1).map
          (fun fcp => mkRow s fcp.1 fcp.2.1 fcp.2.2 nv.2))).mergeSort rowLE :=
      (Option.some.inj hrows).symm
    subst hrows2
    dsimp only
    congr 1
    rw [List.Perm.sum_eq (List.Perm.map _ (List.mergeSort_perm _ rowLE))]
    rw [List.filterMap_filterMap]
    have hpt : ∀ t ∈ m.varIndex,
        (((fun t => if keepQuantity (vals t) then some (encodeTriple t, vals t) else none) t).bind
          (fun nv => (decodeVarName nv.1).map (fun fcp => mkRow s fcp.1 fcp.2.1 fcp.2.2 nv.2))).elim 0
          (fun r => r.Quantity * r.Unit_Cost * (if r.Is_Perishable then (1.2 : ℚ) else 1.0)) =
        (fun t => vals t * unitCostD s t * perishMultD s t) t := by
      intro t ht
      rw [hvar] at ht
      obtain ⟨b, _, hb⟩ := forall2_mem_left hobj t ht
      obtain ⟨f, c, p⟩ := t
      obtain ⟨htf, htc, htp⟩ := crossTriples_components s (f, c, p) ht
      have hgf := hgood.1 _ htf
      have hgc := hgood.2.1 _ htc
      have hgp := hgood.2.2 _ htp
      have hdec : decodeVarName (encodeTriple (f, c, p)) = some (f, c, p) :=
        decode_encodeBracketed f c p hgf hgc hgp
      cases hg1 : dictGet (f, c, p) s.cost_matrix with
      | none =>
        exfalso
        unfold objCoeff at hb
        rw [hg1] at hb
        exact absurd hb (by simp)
      | some r =>
        cases hg2 : dictGet p s.product_details with
        | none =>
          exfalso
          unfold objCoeff at hb
          rw [hg1] at hb
          rw [show dictGet ((f, c, p) : Triple).2.2 s.product_details =
            dictGet p s.product_details from rfl, hg2] at hb
          exact absurd hb (by simp)
        | some prodInfo =>
          dsimp only
          by_cases hk : keepQuantity (vals (f, c, p)) = true
          · rw [if_pos hk]
            simp only [Option.some_bind, hdec, Option.map_some', Option.elim,
              mkRow, unitCostD, perishMultD, hg1, hg2, Option.getD_some]
          · rw [if_neg hk]
            simp only [Option.none_bind, Option.elim]
            have hv0 : vals (f, c, p) = 0 := by
              have hle : ¬ (0 < vals (f, c, p)) := by
                simpa [keepQuantity] using hk
              exact le_antisymm (not_lt.mp hle) (hnn _)
            rw [hv0]
            ring
    rw [sum_filterMap_elim _ _ _ m.varIndex hpt, hvar]
    exact sum_objTerms s vals hobj

/-- The single schedule row of the scenario-1 optimal plan. -/
def rowsS1 : List ShipmentRow := [mkRow scenario1 sF1 sC1 sP1 100]

/-- Witness for claim C4 on the concrete scenario: schedule generation yields
the one row and its adjusted cost sum is the reported total cost. -/
theorem schedule_cost_matches_total_witness :
    generate_shipment_schedule scenario1
      (some (solve mS1 SolverStatus.optimal (fun _ => 100))) = some rowsS1 ∧
    (solve mS1 SolverStatus.optimal (fun _ => 100)).total_cost =
      some ((rowsS1.map (fun r => r.Quantity * r.Unit_Cost *
        (if r.Is_Perishable then (1.2 : ℚ) else 1.0))).sum) := by
  have hs0 : generate_shipment_schedule scenario1
      (some (solve mS1 SolverStatus.optimal (fun _ => 100))) =
      some ([mkRow scenario1 sF1 sC1 sP1 100].mergeSort rowLE) := rfl
  have hs : generate_shipment_schedule scenario1
      (some (solve mS1 SolverStatus.optimal (fun _ => 100))) = some rowsS1 := by
    rw [hs0, List.mergeSort_singleton]
    rfl
  exact ⟨hs, schedule_cost_matches_total scenario1 mS1 (fun _ => 100) rowsS1
    create_model_scenario1 (by unfold goodState goodId; decide)
    (fun t => by norm_num) hs⟩

/-- Witness for claim C1: the objective identity instantiated at the concrete
scenario model, together with the already-closed optimality conjunct. -/
theorem objective_perishable_premium_witness :
    evalObj mS1 (fun _ => 100) =
      ((crossTriples scenario1).map (fun t =>
        100 * unitCostD scenario1 t * perishMultD scenario1 t)).sum :=
  objective_perishable_premium.1 scenario1 mS1 (fun _ => 100) create_model_scenario1

end SupplyChain
